import Mathlib

/-!
# canChat backend — shallow embedding and verification

This file embeds the Motoko actor `canChatBackend` (the chat-room state
engine of the canChat repository) into Lean 4 and proves properties of it.

Modelling conventions:
* `HashMap.HashMap<K, V>` is modelled as an association list `List (K × V)`
  with first-match lookup (`mapGet`), first-match replacement (`mapPut`)
  and key removal (`mapDelete`).  A real `HashMap` never holds two bindings
  of the same key; where a proof needs that fact it takes the key-nodup
  hypothesis explicitly.
* `Time.now()` is a parameter `now : Int` passed to each public call
  (nanoseconds since epoch); on the hosting platform time is constant
  within one message execution.
* `msg.caller : Principal` is a parameter `caller`; `Principal` is opaque
  and modelled as `String`.
* The entropy-driven generators (`generateRoomCode`, `generateSessionId`)
  are awaited values; each public call receives the generated strings as
  oracle parameters (`sid`, and for `createRoom` a stream `codes : Nat →
  RoomCode`, where `codes 0` is the initial generation and `codes (k+1)`
  the k-th retry).
* `Random.Finite` is a finite bit stream `List Bool`; `f.range(p)` takes
  `p` bits from the front and fails (`null`) when fewer remain.
-/

namespace CanChat

abbrev RoomCode := String
abbrev SessionId := String
abbrev Principal := String

/-- Motoko `User` record (a participant identity). -/
structure User where
  sessionId : SessionId
  principal : Principal
  displayName : String
  joinedAt : Int
deriving Repr, DecidableEq

/-- Motoko `Message` record. -/
structure Message where
  id : Nat
  sender : SessionId
  senderName : String
  content : String
  timestamp : Int
deriving Repr, DecidableEq

/-- Motoko `Room` record. -/
structure Room where
  code : RoomCode
  creator : SessionId
  participants : List User
  messages : List Message
  createdAt : Int
  lastActivity : Int
deriving Repr, DecidableEq

/-- The actor's mutable state: both `HashMap`s and both counters. -/
structure State where
  rooms : List (RoomCode × Room)
  sessions : List (SessionId × User)
  messageIdCounter : Nat
  userCounter : Nat
deriving Repr, DecidableEq

/-- The actor's initial state (empty maps, zero counters). -/
def initState : State := ⟨[], [], 0, 0⟩

/-- `SESSION_TIMEOUT`: 20 minutes in nanoseconds. -/
def SESSION_TIMEOUT : Int := 20 * 60 * 1000000000

/-- The fixed 36-character alphabet. -/
def alphabet : List Char := "ABCDEFGHIJKLMNOPQRSTUVWXYZ0123456789".toList

section MapOps

variable {α β : Type} [DecidableEq α]

/-- `HashMap.get`: first binding of the key, if any. -/
def mapGet : List (α × β) → α → Option β
  | [], _ => none
  | (k', v) :: rest, k => if k' = k then some v else mapGet rest k

/-- `HashMap.put`: replace the first binding of the key, or append. -/
def mapPut : List (α × β) → α → β → List (α × β)
  | [], k, v => [(k, v)]
  | (k', v') :: rest, k, v =>
      if k' = k then (k, v) :: rest else (k', v') :: mapPut rest k v

/-- `HashMap.delete`: remove the key's bindings. -/
def mapDelete (m : List (α × β)) (k : α) : List (α × β) :=
  m.filter (fun q => decide (q.1 ≠ k))

theorem mapGet_put_self (m : List (α × β)) (k : α) (v : β) :
    mapGet (mapPut m k v) k = some v := by
  induction m with
  | nil => simp [mapPut, mapGet]
  | cons hd tl ih =>
      obtain ⟨k', v'⟩ := hd
      by_cases h : k' = k <;> simp [mapPut, mapGet, h, ih]

theorem mapGet_put_ne (m : List (α × β)) (k k' : α) (v : β) (h : k' ≠ k) :
    mapGet (mapPut m k v) k' = mapGet m k' := by
  induction m with
  | nil => simp [mapPut, mapGet, Ne.symm h]
  | cons hd tl ih =>
      obtain ⟨k₀, v₀⟩ := hd
      by_cases hk : k₀ = k
      · subst hk
        simp [mapPut, mapGet, Ne.symm h]
      · by_cases hk' : k₀ = k'
        · subst hk'
          simp [mapPut, mapGet, hk]
        · simp [mapPut, mapGet, hk, hk', ih]

theorem mapGet_delete_self (m : List (α × β)) (k : α) :
    mapGet (mapDelete m k) k = none := by
  induction m with
  | nil => simp [mapDelete, mapGet]
  | cons hd tl ih =>
      obtain ⟨k', v'⟩ := hd
      by_cases h : k' = k
      · simpa [mapDelete, h] using ih
      · simpa [mapDelete, mapGet, h] using ih

theorem mapGet_delete_ne (m : List (α × β)) (k k' : α) (h : k' ≠ k) :
    mapGet (mapDelete m k) k' = mapGet m k' := by
  induction m with
  | nil => simp [mapDelete, mapGet]
  | cons hd tl ih =>
      obtain ⟨k₀, v₀⟩ := hd
      by_cases hk : k₀ = k
      · subst hk
        simpa [mapDelete, mapGet, Ne.symm h] using ih
      · by_cases hk' : k₀ = k'
        · subst hk'
          simp [mapDelete, mapGet, hk, List.filter]
        · simpa [mapDelete, mapGet, hk, hk'] using ih

/-- Look-up of a key whose first binding survives a filter is unchanged. -/
theorem mapGet_filter_keep (m : List (α × β)) (k : α) (v : β)
    (p : α × β → Bool) (hget : mapGet m k = some v) (hp : p (k, v) = true) :
    mapGet (m.filter p) k = some v := by
  induction m with
  | nil => simp [mapGet] at hget
  | cons hd tl ih =>
      obtain ⟨k₀, v₀⟩ := hd
      by_cases hk : k₀ = k
      · subst hk
        simp [mapGet] at hget
        subst hget
        simp [List.filter, hp, mapGet]
      · simp [mapGet, hk] at hget
        cases hph : p (k₀, v₀) <;>
          simp [List.filter, hph, mapGet, hk, ih hget]

theorem mapGet_eq_none_of_forall_ne (m : List (α × β)) (k : α)
    (h : ∀ q ∈ m, q.1 ≠ k) : mapGet m k = none := by
  induction m with
  | nil => rfl
  | cons hd tl ih =>
      obtain ⟨k₀, v₀⟩ := hd
      have hne : k₀ ≠ k := h _ (List.mem_cons_self _ _)
      simpa [mapGet, hne] using ih (fun q hq => h q (List.mem_cons_of_mem _ hq))

/-- With duplicate-free keys, dropping the key's binding by a filter makes
the key absent. -/
theorem mapGet_filter_drop (m : List (α × β)) (k : α) (v : β)
    (p : α × β → Bool) (hnd : (m.map Prod.fst).Nodup)
    (hget : mapGet m k = some v) (hp : p (k, v) = false) :
    mapGet (m.filter p) k = none := by
  induction m with
  | nil => simp [mapGet] at hget
  | cons hd tl ih =>
      obtain ⟨k₀, v₀⟩ := hd
      simp only [List.map_cons, List.nodup_cons] at hnd
      by_cases hk : k₀ = k
      · subst hk
        simp only [mapGet, if_pos rfl] at hget
        obtain rfl : v₀ = v := Option.some.inj hget
        simp only [List.filter_cons, hp, Bool.false_eq_true, if_neg]
        refine mapGet_eq_none_of_forall_ne _ _ (fun q hq he => ?_)
        exact hnd.1 (he ▸ List.mem_map_of_mem Prod.fst
          (List.mem_of_mem_filter hq))
      · simp only [mapGet, if_neg hk] at hget
        cases hph : p (k₀, v₀) with
        | false =>
            simp only [List.filter_cons, hph, Bool.false_eq_true, if_neg]
            exact ih hnd.2 hget
        | true =>
            simp only [List.filter_cons, hph, if_pos]
            simpa [mapGet, hk] using ih hnd.2 hget

theorem mapGet_mem {m : List (α × β)} {k : α} {v : β}
    (h : mapGet m k = some v) : (k, v) ∈ m := by
  induction m with
  | nil => simp [mapGet] at h
  | cons hd tl ih =>
      obtain ⟨k₀, v₀⟩ := hd
      by_cases hk : k₀ = k
      · subst hk
        simp [mapGet] at h
        subst h
        exact List.mem_cons_self _ _
      · simp [mapGet, hk] at h
        exact List.mem_cons_of_mem _ (ih h)

theorem mem_mapPut {m : List (α × β)} {k : α} {v : β} {x : α × β}
    (h : x ∈ mapPut m k v) : x = (k, v) ∨ x ∈ m := by
  induction m with
  | nil => simpa [mapPut] using h
  | cons hd tl ih =>
      obtain ⟨k₀, v₀⟩ := hd
      by_cases hk : k₀ = k
      · subst hk
        simp [mapPut] at h
        rcases h with h | h
        · left; simp [h]
        · right; exact List.mem_cons_of_mem _ h
      · simp [mapPut, hk] at h
        rcases h with h | h
        · right; simp [h]
        · rcases ih h with h' | h'
          · left; exact h'
          · right; exact List.mem_cons_of_mem _ h'

end MapOps

/-- Result type of `createRoom`. -/
inductive CreateRoomResult where
  | Ok (roomCode : RoomCode) (room : Room) (sessionId : SessionId)
  | Err (e : String)
deriving Repr, DecidableEq

/-- Result type of `joinRoom`. -/
inductive JoinRoomResult where
  | Ok (room : Room) (sessionId : SessionId)
  | Err (e : String)
deriving Repr, DecidableEq

/-- Result type of `sendMessage`. -/
inductive SendMessageResult where
  | Ok (m : Message)
  | Err (e : String)
deriving Repr, DecidableEq

/-! ## Code generation (`sampleIndex`, `charAt`) -/

/-- The `while (m > 0) { p += 1; m /= 2 }` loop of `sampleIndex`. -/
def bwLoop (m p : Nat) : Nat :=
  if m > 0 then bwLoop (m / 2) (p + 1) else p
termination_by m
decreasing_by exact Nat.div_lt_self (by omega) (by omega)

/-- The bit width `p` computed by `sampleIndex` for alphabet size `n`:
started from `m = n - 1`, `p = 0`. -/
def sampleWidth (n : Nat) : Nat := bwLoop (n - 1) 0

/-- `Random.Finite.range(p)`: take `p` bits from the front of the stream,
most significant first, as `f.range` does; `none` when the stream is
shorter than `p` (entropy exhausted). -/
def range (p : Nat) (f : List Bool) : Option (Nat × List Bool) :=
  if p ≤ f.length then
    some ((f.take p).foldl (fun acc b => 2 * acc + (if b then 1 else 0)) 0,
          f.drop p)
  else none

/-- The recursive accept/retry body of `sampleIndex`, with the entropy
stream made explicit.  The Motoko recursion consumes at least one bit per
retry whenever `n ≥ 2`, and returns at the first draw when `n = 1`, so a
fuel of `f.length + 1` never runs out for `n > 0`; the `0`-fuel branch is
unreachable then. -/
def sampleIndexGo (p n : Nat) : Nat → List Bool → Option Nat
  | 0, _ => none
  | fuel + 1, f =>
      match range p f with
      | some (k, f') => if k < n then some k else sampleIndexGo p n fuel f'
      | none => none

/-- `sampleIndex(f, n)`: rejection sampling of an index in `[0, n)`. -/
def sampleIndex (f : List Bool) (n : Nat) : Option Nat :=
  sampleIndexGo (sampleWidth n) n (f.length + 1) f

/-- `charAt(t, idx)`: walk the characters; `none` models the
`assert false` branch reached when `idx` is out of range. -/
def charAt : List Char → Nat → Option Char
  | [], _ => none
  | c :: _, 0 => some c
  | _ :: cs, n + 1 => charAt cs n

/-! ## Helper functions of the actor -/

/-- `isRoomValid`: the room exists and its last activity is within
`SESSION_TIMEOUT` of now. -/
def isRoomValid (rooms : List (RoomCode × Room)) (roomCode : RoomCode)
    (now : Int) : Bool :=
  match mapGet rooms roomCode with
  | some room => decide (now - room.lastActivity ≤ SESSION_TIMEOUT)
  | none => false

/-- `cleanupExpiredRooms`: delete every room and session whose last
activity (resp. `joinedAt`) is more than `SESSION_TIMEOUT` before now. -/
def cleanupExpiredRooms (st : State) (now : Int) : State :=
  { st with
    rooms := st.rooms.filter
      (fun q => decide (¬ now - q.2.lastActivity > SESSION_TIMEOUT)),
    sessions := st.sessions.filter
      (fun q => decide (¬ now - q.2.joinedAt > SESSION_TIMEOUT)) }

/-- `createOrGetUser`: return the stored user for the session id, or
allocate a fresh one with the next sequential display name. -/
def createOrGetUser (st : State) (sessionId : SessionId)
    (caller : Principal) (now : Int) : User × State :=
  match mapGet st.sessions sessionId with
  | some user => (user, st)
  | none =>
      let n := st.userCounter + 1
      let user : User :=
        { sessionId := sessionId, principal := caller,
          displayName := "User " ++ toString n, joinedAt := now }
      (user, { st with userCounter := n,
                       sessions := mapPut st.sessions sessionId user })

/-! ## Public functions -/

/-- The `while (rooms.get(roomCode) != null and attempts < 10)` retry loop
of `createRoom`.  `fuel` is kept equal to `10 - attempts`, so the fuel
guard and the loop's own `attempts < 10` guard coincide and the function
is exactly the Motoko loop; it returns the final `(attempts, roomCode)`
pair. -/
def codeLoop (rooms : List (RoomCode × Room)) (codes : Nat → RoomCode) :
    Nat → Nat → RoomCode → Nat × RoomCode
  | 0, attempts, code => (attempts, code)
  | fuel + 1, attempts, code =>
      if (mapGet rooms code).isSome ∧ attempts < 10 then
        codeLoop rooms codes fuel (attempts + 1) (codes (attempts + 1))
      else (attempts, code)

/-- `createRoom`: sweep, resolve the session's user, retry code generation
on collision, fail after the attempt budget, otherwise store the room. -/
def createRoom (st : State) (caller : Principal) (now : Int)
    (sid : SessionId) (codes : Nat → RoomCode) : CreateRoomResult × State :=
  let st1 := cleanupExpiredRooms st now
  let p := createOrGetUser st1 sid caller now
  let user := p.1
  let st2 := p.2
  let r := codeLoop st2.rooms codes 10 0 (codes 0)
  let attempts := r.1
  let roomCode := r.2
  if attempts ≥ 10 then
    (.Err "Failed to generate unique room code", st2)
  else
    let room : Room :=
      { code := roomCode, creator := sid, participants := [user],
        messages := [], createdAt := now, lastActivity := now }
    (.Ok roomCode room sid, { st2 with rooms := mapPut st2.rooms roomCode room })

/-- `joinRoom`. -/
def joinRoom (st : State) (roomCode : RoomCode) (caller : Principal)
    (now : Int) (sid : SessionId) : JoinRoomResult × State :=
  let st1 := cleanupExpiredRooms st now
  match mapGet st1.rooms roomCode with
  | some room =>
      if ¬ isRoomValid st1.rooms roomCode now then
        (.Err "Room has expired", { st1 with rooms := mapDelete st1.rooms roomCode })
      else
        let p := createOrGetUser st1 sid caller now
        let user := p.1
        let st2 := p.2
        if (room.participants.find? (fun u => decide (u.sessionId = sid))).isSome then
          (.Ok room sid, st2)
        else
          let updatedRoom : Room :=
            { room with participants := room.participants ++ [user],
                        lastActivity := now }
          (.Ok updatedRoom sid,
           { st2 with rooms := mapPut st2.rooms roomCode updatedRoom })
  | none => (.Err "Room not found", st1)

/-- `sendMessage`.  The Motoko function receives the caller (`_msg`) but
never uses it. -/
def sendMessage (st : State) (_caller : Principal) (roomCode : RoomCode)
    (sid : SessionId) (content : String) (now : Int) :
    SendMessageResult × State :=
  let st1 := cleanupExpiredRooms st now
  match mapGet st1.rooms roomCode with
  | some room =>
      if ¬ isRoomValid st1.rooms roomCode now then
        (.Err "Room has expired", { st1 with rooms := mapDelete st1.rooms roomCode })
      else
        match room.participants.find? (fun u => decide (u.sessionId = sid)) with
        | some user =>
            let message : Message :=
              { id := st1.messageIdCounter, sender := sid,
                senderName := user.displayName, content := content,
                timestamp := now }
            let updatedRoom : Room :=
              { room with messages := room.messages ++ [message],
                          lastActivity := now }
            (.Ok message,
             { st1 with messageIdCounter := st1.messageIdCounter + 1,
                        rooms := mapPut st1.rooms roomCode updatedRoom })
        | none => (.Err "You are not a member of this room", st1)
  | none => (.Err "Room not found", st1)

/-- `getRoom` (query; no sweep, no mutation). -/
def getRoom (st : State) (roomCode : RoomCode) : Option Room :=
  mapGet st.rooms roomCode

/-- `getMessages` (query; no sweep, no mutation, no expiry check). -/
def getMessages (st : State) (roomCode : RoomCode) : List Message :=
  match mapGet st.rooms roomCode with
  | some room => room.messages
  | none => []

/-- `endRoom`.  The Motoko function receives the caller (`_msg`) but never
uses it; there is no sweep and no expiry check. -/
def endRoom (st : State) (_caller : Principal) (roomCode : RoomCode)
    (sid : SessionId) : Bool × State :=
  match mapGet st.rooms roomCode with
  | some room =>
      if room.creator = sid then
        (true, { st with rooms := mapDelete st.rooms roomCode })
      else (false, st)
  | none => (false, st)

/-- `leaveRoom`.  The Motoko function receives the caller (`_msg`) but
never uses it; there is no sweep and no expiry check. -/
def leaveRoom (st : State) (_caller : Principal) (roomCode : RoomCode)
    (sid : SessionId) (now : Int) : Bool × State :=
  match mapGet st.rooms roomCode with
  | some room =>
      let updatedParticipants :=
        room.participants.filter (fun u => decide (u.sessionId ≠ sid))
      if updatedParticipants.length = 0 then
        (true, { st with rooms := mapDelete st.rooms roomCode })
      else
        let updatedRoom : Room :=
          { room with participants := updatedParticipants,
                      lastActivity := now }
        (true, { st with rooms := mapPut st.rooms roomCode updatedRoom })
  | none => (false, st)

/-- `cleanup` (public wrapper around the sweep). -/
def cleanup (st : State) (now : Int) : State := cleanupExpiredRooms st now

/-! ## Operation traces

One constructor per state-mutating entry point of the actor; each carries
the call's arguments together with the oracle data (caller, time, generated
identifiers) that the platform supplies. -/

inductive Op where
  | create (caller : Principal) (now : Int) (sid : SessionId)
      (codes : Nat → RoomCode)
  | join (code : RoomCode) (caller : Principal) (now : Int) (sid : SessionId)
  | send (code : RoomCode) (caller : Principal) (sid : SessionId)
      (content : String) (now : Int)
  | leave (code : RoomCode) (caller : Principal) (sid : SessionId) (now : Int)
  | endR (code : RoomCode) (caller : Principal) (sid : SessionId)
  | sweep (now : Int)

/-- The state after one call (results discarded). -/
def applyOp (st : State) : Op → State
  | .create caller now sid codes => (createRoom st caller now sid codes).2
  | .join code caller now sid => (joinRoom st code caller now sid).2
  | .send code caller sid content now =>
      (sendMessage st caller code sid content now).2
  | .leave code caller sid now => (leaveRoom st caller code sid now).2
  | .endR code caller sid => (endRoom st caller code sid).2
  | .sweep now => cleanup st now

/-- The state after a sequence of calls. -/
def runOps (st : State) : List Op → State
  | [] => st
  | op :: rest => runOps (applyOp st op) rest

/-- The message ids a single call hands back to its caller:
the id of the `Ok` message for a successful `sendMessage`, nothing
otherwise. -/
def opSentIds (st : State) : Op → List Nat
  | .send code caller sid content now =>
      match (sendMessage st caller code sid content now).1 with
      | .Ok m => [m.id]
      | .Err _ => []
  | _ => []

/-- All message ids returned by successful `sendMessage` calls along a
trace, in call order. -/
def sentIds (st : State) : List Op → List Nat
  | [] => []
  | op :: rest => opSentIds st op ++ sentIds (applyOp st op) rest

/-! ## State invariant -/

/-- Per-room invariant relative to the store's message-id counter:
no duplicate participant session id, message ids strictly increasing in
position, and every stored id below the counter. -/
def RoomOK (counter : Nat) (room : Room) : Prop :=
  room.participants.Pairwise (fun u v => u.sessionId ≠ v.sessionId) ∧
  (room.messages.map Message.id).Pairwise (· < ·) ∧
  ∀ m ∈ room.messages, m.id < counter

/-- Store invariant: every stored room satisfies `RoomOK`, and every
stored session binding's user carries the binding's key as its
`sessionId`. -/
def Inv (st : State) : Prop :=
  (∀ q ∈ st.rooms, RoomOK st.messageIdCounter q.2) ∧
  (∀ q ∈ st.sessions, (q.2 : User).sessionId = q.1)

theorem Inv_initState : Inv initState := by
  constructor <;> simp [initState]

/-! ## Component lemmas -/

theorem cleanup_messageIdCounter (st : State) (now : Int) :
    (cleanupExpiredRooms st now).messageIdCounter = st.messageIdCounter := rfl

theorem cleanup_sessions_sub (st : State) (now : Int) :
    ∀ q ∈ (cleanupExpiredRooms st now).sessions, q ∈ st.sessions := by
  intro q hq
  exact List.mem_of_mem_filter hq

theorem cleanup_rooms_sub (st : State) (now : Int) :
    ∀ q ∈ (cleanupExpiredRooms st now).rooms, q ∈ st.rooms := by
  intro q hq
  exact List.mem_of_mem_filter hq

theorem createOrGetUser_rooms (st : State) (sid : SessionId)
    (caller : Principal) (now : Int) :
    (createOrGetUser st sid caller now).2.rooms = st.rooms := by
  cases h : mapGet st.sessions sid <;> simp [createOrGetUser, h]

theorem createOrGetUser_messageIdCounter (st : State) (sid : SessionId)
    (caller : Principal) (now : Int) :
    (createOrGetUser st sid caller now).2.messageIdCounter
      = st.messageIdCounter := by
  cases h : mapGet st.sessions sid <;> simp [createOrGetUser, h]

/-- Under the session-map invariant, the user resolved for `sid` carries
`sid` as its session id, whether it was found or freshly created. -/
theorem createOrGetUser_sessionId (st : State) (sid : SessionId)
    (caller : Principal) (now : Int)
    (h : ∀ q ∈ st.sessions, (q.2 : User).sessionId = q.1) :
    (createOrGetUser st sid caller now).1.sessionId = sid := by
  cases hm : mapGet st.sessions sid with
  | none => simp [createOrGetUser, hm]
  | some user =>
      have := h _ (mapGet_mem hm)
      simpa [createOrGetUser, hm] using this

/-- `createOrGetUser` preserves the session-map invariant. -/
theorem createOrGetUser_sessions_inv (st : State) (sid : SessionId)
    (caller : Principal) (now : Int)
    (h : ∀ q ∈ st.sessions, (q.2 : User).sessionId = q.1) :
    ∀ q ∈ (createOrGetUser st sid caller now).2.sessions,
      (q.2 : User).sessionId = q.1 := by
  cases hm : mapGet st.sessions sid with
  | none =>
      intro q hq
      simp only [createOrGetUser, hm] at hq
      rcases mem_mapPut hq with h' | h'
      · subst h'; rfl
      · exact h _ h'
  | some user =>
      intro q hq
      simp only [createOrGetUser, hm] at hq
      exact h _ hq

theorem RoomOK_mono {c c' : Nat} (hcc : c ≤ c') {room : Room}
    (h : RoomOK c room) : RoomOK c' room :=
  ⟨h.1, h.2.1, fun m hm => lt_of_lt_of_le (h.2.2 m hm) hcc⟩

theorem Inv_cleanup (st : State) (now : Int) (h : Inv st) :
    Inv (cleanupExpiredRooms st now) := by
  refine ⟨fun q hq => ?_, fun q hq => h.2 q (cleanup_sessions_sub st now q hq)⟩
  exact h.1 q (cleanup_rooms_sub st now q hq)

theorem Inv_createOrGetUser (st : State) (sid : SessionId)
    (caller : Principal) (now : Int) (h : Inv st) :
    Inv (createOrGetUser st sid caller now).2 := by
  constructor
  · intro q hq
    rw [createOrGetUser_rooms] at hq
    rw [createOrGetUser_messageIdCounter]
    exact h.1 q hq
  · exact createOrGetUser_sessions_inv st sid caller now h.2

theorem createRoom_inv (st : State) (caller : Principal) (now : Int)
    (sid : SessionId) (codes : Nat → RoomCode) (h : Inv st) :
    Inv (createRoom st caller now sid codes).2 := by
  have h2 := Inv_createOrGetUser (cleanupExpiredRooms st now) sid caller now
    (Inv_cleanup st now h)
  unfold createRoom
  dsimp only
  split
  · exact h2
  · constructor
    · intro q hq
      rcases mem_mapPut hq with h' | h'
      · subst h'
        exact ⟨List.pairwise_singleton _ _, by simp, by simp⟩
      · exact h2.1 q h'
    · exact h2.2

theorem joinRoom_inv (st : State) (code : RoomCode) (caller : Principal)
    (now : Int) (sid : SessionId) (h : Inv st) :
    Inv (joinRoom st code caller now sid).2 := by
  have h1 := Inv_cleanup st now h
  unfold joinRoom
  cases hm : mapGet (cleanupExpiredRooms st now).rooms code with
  | none => simpa [hm] using h1
  | some room =>
      simp only [hm]
      split
      · exact ⟨fun q hq => h1.1 q (List.mem_of_mem_filter hq), h1.2⟩
      · have h2 := Inv_createOrGetUser (cleanupExpiredRooms st now) sid caller
          now h1
        split
        · exact h2
        · rename_i hfind
          constructor
          · intro q hq
            rcases mem_mapPut hq with h' | h'
            · subst h'
              have hroom : RoomOK (cleanupExpiredRooms st now).messageIdCounter
                  room := h1.1 _ (mapGet_mem hm)
              refine ⟨?_, hroom.2.1, ?_⟩
              · rw [List.pairwise_append]
                refine ⟨hroom.1, List.pairwise_singleton _ _, ?_⟩
                intro a ha b hb
                simp only [List.mem_singleton] at hb
                subst hb
                rw [createOrGetUser_sessionId _ _ _ _ h1.2]
                have hnone : room.participants.find?
                    (fun u => decide (u.sessionId = sid)) = none :=
                  Option.not_isSome_iff_eq_none.mp hfind
                have := List.find?_eq_none.mp hnone a ha
                simpa using this
              · rw [createOrGetUser_messageIdCounter]
                exact hroom.2.2
            · exact h2.1 q h'
          · exact h2.2

theorem sendMessage_inv (st : State) (caller : Principal) (code : RoomCode)
    (sid : SessionId) (content : String) (now : Int) (h : Inv st) :
    Inv (sendMessage st caller code sid content now).2 := by
  have h1 := Inv_cleanup st now h
  unfold sendMessage
  cases hm : mapGet (cleanupExpiredRooms st now).rooms code with
  | none => simpa [hm] using h1
  | some room =>
      simp only [hm]
      split
      · exact ⟨fun q hq => h1.1 q (List.mem_of_mem_filter hq), h1.2⟩
      · cases hf : room.participants.find?
            (fun u => decide (u.sessionId = sid)) with
        | none => simpa [hf] using h1
        | some user =>
            simp only [hf]
            constructor
            · intro q hq
              rcases mem_mapPut hq with h' | h'
              · subst h'
                have hroom := h1.1 _ (mapGet_mem hm)
                refine ⟨hroom.1, ?_, ?_⟩
                · rw [List.map_append, List.pairwise_append]
                  refine ⟨hroom.2.1, by simp, ?_⟩
                  intro a ha b hb
                  simp only [List.map_cons, List.map_nil,
                    List.mem_singleton] at hb
                  subst hb
                  obtain ⟨msg, hmsg, rfl⟩ := List.mem_map.mp ha
                  exact hroom.2.2 msg hmsg
                · intro m hmem
                  rcases List.mem_append.mp hmem with h'' | h''
                  · exact Nat.lt_succ_of_lt (hroom.2.2 m h'')
                  · simp only [List.mem_singleton] at h''
                    subst h''
                    exact Nat.lt_succ_self _
              · exact RoomOK_mono (Nat.le_succ _) (h1.1 q h')
            · exact h1.2

theorem leaveRoom_inv (st : State) (caller : Principal) (code : RoomCode)
    (sid : SessionId) (now : Int) (h : Inv st) :
    Inv (leaveRoom st caller code sid now).2 := by
  unfold leaveRoom
  cases hm : mapGet st.rooms code with
  | none => simpa [hm] using h
  | some room =>
      simp only [hm]
      split
      · exact ⟨fun q hq => h.1 q (List.mem_of_mem_filter hq), h.2⟩
      · constructor
        · intro q hq
          rcases mem_mapPut hq with h' | h'
          · subst h'
            have hroom := h.1 _ (mapGet_mem hm)
            exact ⟨List.Pairwise.sublist (List.filter_sublist _) hroom.1,
              hroom.2.1, hroom.2.2⟩
          · exact h.1 q h'
        · exact h.2

theorem endRoom_inv (st : State) (caller : Principal) (code : RoomCode)
    (sid : SessionId) (h : Inv st) : Inv (endRoom st caller code sid).2 := by
  unfold endRoom
  cases hm : mapGet st.rooms code with
  | none => simpa [hm] using h
  | some room =>
      simp only [hm]
      split
      · exact ⟨fun q hq => h.1 q (List.mem_of_mem_filter hq), h.2⟩
      · exact h

theorem applyOp_inv (st : State) (op : Op) (h : Inv st) :
    Inv (applyOp st op) := by
  cases op with
  | create caller now sid codes => exact createRoom_inv st caller now sid codes h
  | join code caller now sid => exact joinRoom_inv st code caller now sid h
  | send code caller sid content now =>
      exact sendMessage_inv st caller code sid content now h
  | leave code caller sid now => exact leaveRoom_inv st caller code sid now h
  | endR code caller sid => exact endRoom_inv st caller code sid h
  | sweep now => exact Inv_cleanup st now h

theorem runOps_inv (ops : List Op) : ∀ st : State, Inv st →
    Inv (runOps st ops) := by
  induction ops with
  | nil => intro st h; exact h
  | cons op rest ih => intro st h; exact ih _ (applyOp_inv st op h)

/-! ## Message-id counter lemmas -/

theorem createRoom_messageIdCounter (st : State) (caller : Principal)
    (now : Int) (sid : SessionId) (codes : Nat → RoomCode) :
    (createRoom st caller now sid codes).2.messageIdCounter
      = st.messageIdCounter := by
  unfold createRoom
  dsimp only
  split <;> simp [createOrGetUser_messageIdCounter, cleanup_messageIdCounter]

theorem joinRoom_messageIdCounter (st : State) (code : RoomCode)
    (caller : Principal) (now : Int) (sid : SessionId) :
    (joinRoom st code caller now sid).2.messageIdCounter
      = st.messageIdCounter := by
  unfold joinRoom
  cases hm : mapGet (cleanupExpiredRooms st now).rooms code with
  | none => simp [hm, cleanup_messageIdCounter]
  | some room =>
      simp only [hm]
      split
      · simp [cleanup_messageIdCounter]
      · split <;>
          simp [createOrGetUser_messageIdCounter, cleanup_messageIdCounter]

theorem leaveRoom_messageIdCounter (st : State) (caller : Principal)
    (code : RoomCode) (sid : SessionId) (now : Int) :
    (leaveRoom st caller code sid now).2.messageIdCounter
      = st.messageIdCounter := by
  unfold leaveRoom
  cases hm : mapGet st.rooms code with
  | none => simp [hm]
  | some room =>
      simp only [hm]
      split <;> rfl

theorem endRoom_messageIdCounter (st : State) (caller : Principal)
    (code : RoomCode) (sid : SessionId) :
    (endRoom st caller code sid).2.messageIdCounter = st.messageIdCounter := by
  unfold endRoom
  cases hm : mapGet st.rooms code with
  | none => simp [hm]
  | some room =>
      simp only [hm]
      split <;> rfl

/-- On any branch, a successful `sendMessage` hands back the old counter as
the new message's id and bumps the counter by one; and the counter never
decreases. -/
theorem sendMessage_counter_spec (st : State) (caller : Principal)
    (code : RoomCode) (sid : SessionId) (content : String) (now : Int) :
    (∀ m, (sendMessage st caller code sid content now).1 = .Ok m →
        m.id = st.messageIdCounter ∧
        (sendMessage st caller code sid content now).2.messageIdCounter
          = st.messageIdCounter + 1) ∧
    st.messageIdCounter ≤
      (sendMessage st caller code sid content now).2.messageIdCounter := by
  unfold sendMessage
  cases hm : mapGet (cleanupExpiredRooms st now).rooms code with
  | none => simp [hm, cleanup_messageIdCounter]
  | some room =>
      simp only [hm]
      split
      · simp [cleanup_messageIdCounter]
      · cases hf : room.participants.find?
            (fun u => decide (u.sessionId = sid)) with
        | none => simp [hf, cleanup_messageIdCounter]
        | some user =>
            simp only [hf]
            refine ⟨fun m hm' => ?_, Nat.le_succ _⟩
            simp only at hm'
            cases hm'
            exact ⟨rfl, rfl⟩

theorem applyOp_counter_le (st : State) (op : Op) :
    st.messageIdCounter ≤ (applyOp st op).messageIdCounter := by
  cases op with
  | create caller now sid codes =>
      exact le_of_eq (createRoom_messageIdCounter st caller now sid codes).symm
  | join code caller now sid =>
      exact le_of_eq (joinRoom_messageIdCounter st code caller now sid).symm
  | send code caller sid content now =>
      exact (sendMessage_counter_spec st caller code sid content now).2
  | leave code caller sid now =>
      exact le_of_eq (leaveRoom_messageIdCounter st caller code sid now).symm
  | endR code caller sid =>
      exact le_of_eq (endRoom_messageIdCounter st caller code sid).symm
  | sweep now => exact le_of_eq (cleanup_messageIdCounter st now).symm

/-- Any id a call hands back equals the pre-call counter, and such a call
bumps the counter. -/
theorem opSentIds_spec (st : State) (op : Op) :
    ∀ i ∈ opSentIds st op,
      i = st.messageIdCounter ∧
      (applyOp st op).messageIdCounter = st.messageIdCounter + 1 := by
  cases op with
  | send code caller sid content now =>
      intro i hi
      simp only [opSentIds] at hi
      cases hres : (sendMessage st caller code sid content now).1 with
      | Err e => simp [hres] at hi
      | Ok m =>
          simp only [hres, List.mem_singleton] at hi
          subst hi
          have := (sendMessage_counter_spec st caller code sid content now).1
            m hres
          exact ⟨this.1, this.2⟩
  | create caller now sid codes => intro i hi; simp [opSentIds] at hi
  | join code caller now sid => intro i hi; simp [opSentIds] at hi
  | leave code caller sid now => intro i hi; simp [opSentIds] at hi
  | endR code caller sid => intro i hi; simp [opSentIds] at hi
  | sweep now => intro i hi; simp [opSentIds] at hi

/-- The ids handed out along a trace are strictly increasing in call
order, and all of them are at least the starting counter. -/
theorem sentIds_pairwise_lb (ops : List Op) : ∀ st : State,
    List.Pairwise (· < ·) (sentIds st ops) ∧
    ∀ x ∈ sentIds st ops, st.messageIdCounter ≤ x := by
  induction ops with
  | nil => intro st; simp [sentIds]
  | cons op rest ih =>
      intro st
      have ihs := ih (applyOp st op)
      constructor
      · show List.Pairwise (· < ·) (opSentIds st op ++ sentIds (applyOp st op) rest)
        rw [List.pairwise_append]
        refine ⟨?_, ihs.1, ?_⟩
        · cases hop : opSentIds st op with
          | nil => exact List.Pairwise.nil
          | cons a tl =>
              cases op <;> simp only [opSentIds] at hop
              case send code caller sid content now =>
                cases hres : (sendMessage st caller code sid content now).1 <;>
                  simp [hres] at hop
                case Ok m =>
                  obtain ⟨rfl, rfl⟩ := hop
                  exact List.pairwise_singleton _ _
              all_goals simp at hop
        · intro a ha b hb
          obtain ⟨ha1, ha2⟩ := opSentIds_spec st op a ha
          have hb' := ihs.2 b hb
          omega
      · intro x hx
        show st.messageIdCounter ≤ x
        rcases List.mem_append.mp hx with hx' | hx'
        · exact le_of_eq (opSentIds_spec st op x hx').1.symm
        · exact le_trans (applyOp_counter_le st op) (ihs.2 x hx')

/-! ## Code-generation lemmas -/

theorem bwLoop_eq_zero_add (m : Nat) : ∀ p, bwLoop m p = bwLoop m 0 + p := by
  induction m using Nat.strong_induction_on with
  | _ m ih =>
      intro p
      by_cases hm : m > 0
      · have hlt : m / 2 < m := Nat.div_lt_self hm one_lt_two
        conv_lhs => rw [bwLoop.eq_def]
        conv_rhs => rw [bwLoop.eq_def]
        rw [if_pos hm, if_pos hm, ih _ hlt (p + 1), ih _ hlt (0 + 1)]
        omega
      · conv_lhs => rw [bwLoop.eq_def]
        conv_rhs => rw [bwLoop.eq_def]
        rw [if_neg hm, if_neg hm]
        omega

theorem bwLoop_lt (m : Nat) : m < 2 ^ bwLoop m 0 := by
  induction m using Nat.strong_induction_on with
  | _ m ih =>
      by_cases hm : m > 0
      · have hlt : m / 2 < m := Nat.div_lt_self hm one_lt_two
        have h2 := ih _ hlt
        have e : bwLoop m 0 = bwLoop (m / 2) 0 + 1 := by
          conv_lhs => rw [bwLoop.eq_def]
          rw [if_pos hm, bwLoop_eq_zero_add]
        rw [e, pow_succ]
        omega
      · have e : bwLoop m 0 = 0 := by
          conv_lhs => rw [bwLoop.eq_def]
          rw [if_neg hm]
        rw [e]
        omega

theorem bwLoop_min (m : Nat) : ∀ q, m < 2 ^ q → bwLoop m 0 ≤ q := by
  induction m using Nat.strong_induction_on with
  | _ m ih =>
      intro q hq
      by_cases hm : m > 0
      · cases q with
        | zero =>
            simp only [pow_zero] at hq
            omega
        | succ q' =>
            have hdiv : m / 2 < 2 ^ q' := by
              rw [pow_succ] at hq
              omega
            have hrec := ih (m / 2) (Nat.div_lt_self hm one_lt_two) q' hdiv
            have e : bwLoop m 0 = bwLoop (m / 2) 0 + 1 := by
              conv_lhs => rw [bwLoop.eq_def]
              rw [if_pos hm, bwLoop_eq_zero_add]
            omega
      · have e : bwLoop m 0 = 0 := by
          conv_lhs => rw [bwLoop.eq_def]
          rw [if_neg hm]
        omega

/-- The width computed by `sampleIndex` is the least `p` with `2^p ≥ n`. -/
theorem sampleWidth_spec (n : Nat) (hn : 0 < n) :
    n ≤ 2 ^ sampleWidth n ∧ ∀ q, n ≤ 2 ^ q → sampleWidth n ≤ q := by
  constructor
  · have := bwLoop_lt (n - 1)
    unfold sampleWidth
    omega
  · intro q hq
    exact bwLoop_min (n - 1) q (by omega)

theorem sampleIndexGo_lt (p n : Nat) : ∀ fuel f k,
    sampleIndexGo p n fuel f = some k → k < n := by
  intro fuel
  induction fuel with
  | zero => intro f k h; simp [sampleIndexGo] at h
  | succ m ih =>
      intro f k h
      simp only [sampleIndexGo] at h
      cases hr : range p f with
      | none => rw [hr] at h; simp at h
      | some kv =>
          obtain ⟨k', f'⟩ := kv
          rw [hr] at h
          simp only at h
          by_cases hk : k' < n
          · rw [if_pos hk] at h
            obtain rfl : k' = k := by simpa using h
            exact hk
          · rw [if_neg hk] at h
            exact ih f' k h

/-- Every index `sampleIndex` returns is below `n`. -/
theorem sampleIndex_lt (f : List Bool) (n k : Nat)
    (h : sampleIndex f n = some k) : k < n :=
  sampleIndexGo_lt _ _ _ _ _ h

theorem charAt_isSome (t : List Char) : ∀ idx : Nat, idx < t.length →
    (charAt t idx).isSome := by
  induction t with
  | nil => intro idx h; simp at h
  | cons c cs ih =>
      intro idx h
      cases idx with
      | zero => simp [charAt]
      | succ i =>
          simp only [charAt]
          exact ih i (by simpa using h)

/-! ## Demonstration trace (used by witnesses) -/

def demoCodes : Nat → RoomCode := fun _ => "AB12CD"

def demoOps : List Op :=
  [ .create "alice" 0 "SESSIONAAAAA" demoCodes,
    .send "AB12CD" "alice" "SESSIONAAAAA" "hi" 1,
    .join "AB12CD" "bob" 2 "SESSIONBBBBB",
    .send "AB12CD" "bob" "SESSIONBBBBB" "yo" 3 ]

def demoRoom : Room :=
  { code := "AB12CD", creator := "SESSIONAAAAA",
    participants :=
      [ ⟨"SESSIONAAAAA", "alice", "User 1", 0⟩,
        ⟨"SESSIONBBBBB", "bob", "User 2", 2⟩ ],
    messages :=
      [ ⟨0, "SESSIONAAAAA", "User 1", "hi", 1⟩,
        ⟨1, "SESSIONBBBBB", "User 2", "yo", 3⟩ ],
    createdAt := 0, lastActivity := 3 }

/-! ## Claim theorems -/

/-- **C3.** Message ids returned by successful `sendMessage` calls along
any trace of operations from the actor's initial state are strictly
increasing in call order across the whole store (hence never reused),
regardless of which room received them; consequently within every stored
room, `messages[i].id` is strictly increasing with the position `i`. -/
theorem claim_C3_message_ids (ops : List Op) :
    List.Pairwise (· < ·) (sentIds initState ops) ∧
    (sentIds initState ops).Nodup ∧
    ∀ code : RoomCode,
      ((getMessages (runOps initState ops) code).map Message.id).Pairwise
        (· < ·) := by
  have h1 := sentIds_pairwise_lb ops initState
  refine ⟨h1.1, h1.1.imp Nat.ne_of_lt, fun code => ?_⟩
  have hinv := runOps_inv ops initState Inv_initState
  unfold getMessages
  cases hm : mapGet (runOps initState ops).rooms code with
  | none => simp [hm]
  | some room =>
      simp only [hm]
      exact (hinv.1 _ (mapGet_mem hm)).2.1

theorem claim_C3_witness :
    List.Pairwise (· < ·) (sentIds initState demoOps) ∧
    (sentIds initState demoOps).Nodup ∧
    ((getMessages (runOps initState demoOps) "AB12CD").map
      Message.id).Pairwise (· < ·) :=
  ⟨(claim_C3_message_ids demoOps).1, (claim_C3_message_ids demoOps).2.1,
   (claim_C3_message_ids demoOps).2.2 "AB12CD"⟩

/-- **C8.** Every state reachable from the initial state by the actor's
operations (createRoom, joinRoom, sendMessage, leaveRoom, endRoom,
cleanup) stores only rooms whose participants are pairwise distinct by
session id; in particular every one of those operations preserves the
no-duplicate-participant invariant. -/
theorem claim_C8_participants_distinct (ops : List Op) (code : RoomCode)
    (room : Room) (h : getRoom (runOps initState ops) code = some room) :
    room.participants.Pairwise (fun u v => u.sessionId ≠ v.sessionId) :=
  ((runOps_inv ops initState Inv_initState).1 _ (mapGet_mem h)).1

theorem claim_C8_witness :
    demoRoom.participants.Pairwise (fun u v => u.sessionId ≠ v.sessionId) :=
  claim_C8_participants_distinct demoOps "AB12CD" demoRoom (by decide)

/-- **C9.** `sendMessage`, `leaveRoom` and `endRoom` authorize purely by
the `sessionId` argument: the caller principal (received as `_msg` and
never read) has no influence on either the returned value or the
resulting store state, so any caller who knows a session id can act as
that participant. -/
theorem claim_C9_caller_irrelevant (st : State) (code : RoomCode)
    (sid : SessionId) (content : String) (now : Int)
    (callerA callerB : Principal) :
    sendMessage st callerA code sid content now
      = sendMessage st callerB code sid content now ∧
    leaveRoom st callerA code sid now = leaveRoom st callerB code sid now ∧
    endRoom st callerA code sid = endRoom st callerB code sid :=
  ⟨rfl, rfl, rfl⟩

/-- **C7.** For every `n > 0`, `sampleIndex` computes the minimal bit
width `p` with `2^p ≥ n`, and every index it returns is strictly below
`n`; with `n = 36` every computed index locates a character of the fixed
36-character alphabet, so `charAt`'s assert-false branch (modelled as
`none`) is unreachable during code and session-id generation. -/
theorem claim_C7_charAt_unreachable (n : Nat) (hn : 0 < n) :
    (n ≤ 2 ^ sampleWidth n ∧ ∀ q, n ≤ 2 ^ q → sampleWidth n ≤ q) ∧
    (∀ f k, sampleIndex f n = some k → k < n) ∧
    (∀ f k, sampleIndex f 36 = some k → (charAt alphabet k).isSome) := by
  refine ⟨sampleWidth_spec n hn, fun f k h => sampleIndex_lt f n k h,
    fun f k h => ?_⟩
  have hk := sampleIndex_lt f 36 k h
  have hlen : alphabet.length = 36 := by decide
  exact charAt_isSome alphabet k (by omega)

theorem claim_C7_witness :
    0 < 36 ∧
    ((36 ≤ 2 ^ sampleWidth 36 ∧ ∀ q, 36 ≤ 2 ^ q → sampleWidth 36 ≤ q) ∧
     (∀ f k, sampleIndex f 36 = some k → k < 36) ∧
     (∀ f k, sampleIndex f 36 = some k → (charAt alphabet k).isSome)) :=
  ⟨by decide, claim_C7_charAt_unreachable 36 (by decide)⟩

/-- **C4.** `joinRoom` is idempotent for an existing member: for a live
room (after the sweep) whose participants already contain the generated
session id, the call returns the room unchanged and the stored room is
untouched — same membership, no appended participant, same
`lastActivity`. -/
theorem claim_C4_join_idempotent (st : State) (code : RoomCode) (room : Room)
    (caller : Principal) (now : Int) (sid : SessionId)
    (hget : mapGet st.rooms code = some room)
    (hlive : now - room.lastActivity ≤ SESSION_TIMEOUT)
    (hmem : ∃ u ∈ room.participants, u.sessionId = sid) :
    (joinRoom st code caller now sid).1 = .Ok room sid ∧
    mapGet (joinRoom st code caller now sid).2.rooms code = some room := by
  have hclean : mapGet (cleanupExpiredRooms st now).rooms code = some room := by
    refine mapGet_filter_keep st.rooms code room _ hget ?_
    simp only [decide_eq_true_eq]
    omega
  have hvalid : isRoomValid (cleanupExpiredRooms st now).rooms code now
      = true := by
    simp [isRoomValid, hclean]
    omega
  have hfind : (room.participants.find?
      (fun u => decide (u.sessionId = sid))).isSome = true := by
    rw [List.find?_isSome]
    obtain ⟨u, hu, he⟩ := hmem
    exact ⟨u, hu, by simp [he]⟩
  unfold joinRoom
  simp only [hclean]
  rw [if_neg (by simp [hvalid])]
  rw [if_pos hfind]
  exact ⟨rfl, by rw [createOrGetUser_rooms]; exact hclean⟩

def c4state : State :=
  { rooms := [("AB12CD", demoRoom)], sessions := [],
    messageIdCounter := 2, userCounter := 2 }

theorem claim_C4_witness :
    (joinRoom c4state "AB12CD" "mallory" 4 "SESSIONBBBBB").1
      = .Ok demoRoom "SESSIONBBBBB" ∧
    mapGet (joinRoom c4state "AB12CD" "mallory" 4 "SESSIONBBBBB").2.rooms
      "AB12CD" = some demoRoom :=
  claim_C4_join_idempotent c4state "AB12CD" demoRoom "mallory" 4
    "SESSIONBBBBB" (by decide) (by decide) (by decide)

/-- **C5.** `endRoom` deletes the room iff the given session id equals the
room's creator — and it reads no clock, so no expiry check restricts the
creator even on a stale room — returning whether the deletion occurred;
with a non-creator session id it returns false and the entire store
(hence the room with all its fields) is unchanged. -/
theorem claim_C5_endRoom_creator_only (st : State) (caller : Principal)
    (code : RoomCode) (sid : SessionId) :
    ((endRoom st caller code sid).1 = true ↔
      ∃ room, mapGet st.rooms code = some room ∧ room.creator = sid) ∧
    (∀ room, mapGet st.rooms code = some room → room.creator = sid →
      mapGet (endRoom st caller code sid).2.rooms code = none) ∧
    (∀ room, mapGet st.rooms code = some room → room.creator ≠ sid →
      (endRoom st caller code sid).1 = false ∧
      (endRoom st caller code sid).2 = st) := by
  unfold endRoom
  cases hm : mapGet st.rooms code with
  | none =>
      simp only [hm]
      exact ⟨by simp, fun room hr => by simp at hr, fun room hr => by simp at hr⟩
  | some room =>
      simp only [hm]
      split
      · rename_i hcr
        refine ⟨⟨fun _ => ⟨room, rfl, hcr⟩, fun _ => rfl⟩, ?_, ?_⟩
        · intro r hr _
          exact mapGet_delete_self st.rooms code
        · intro r hr hne
          obtain rfl : r = room := (Option.some.inj hr).symm
          exact absurd hcr hne
      · rename_i hcr
        refine ⟨⟨fun hf => by simp at hf, ?_⟩, ?_, fun r hr hne => ⟨rfl, rfl⟩⟩
        · rintro ⟨r, hr, hcrr⟩
          obtain rfl : r = room := (Option.some.inj hr).symm
          exact absurd hcrr hcr
        · intro r hr hcrr
          obtain rfl : r = room := (Option.some.inj hr).symm
          exact absurd hcrr hcr

theorem claim_C5_witness :
    mapGet (endRoom c4state "mallory" "AB12CD" "SESSIONAAAAA").2.rooms
      "AB12CD" = none ∧
    ((endRoom c4state "mallory" "AB12CD" "SESSIONBBBBB").1 = false ∧
     (endRoom c4state "mallory" "AB12CD" "SESSIONBBBBB").2 = c4state) :=
  ⟨(claim_C5_endRoom_creator_only c4state "mallory" "AB12CD"
      "SESSIONAAAAA").2.1 demoRoom (by decide) (by decide),
   (claim_C5_endRoom_creator_only c4state "mallory" "AB12CD"
      "SESSIONBBBBB").2.2 demoRoom (by decide) (by decide)⟩

/-- **C6.** `leaveRoom` returns false iff no room is stored under the
code; for every existing room it returns true regardless of membership,
removes the session id from the participants (a filter), and when the
resulting membership is empty it deletes the room, so a subsequent
`getRoom` returns absent; otherwise the filtered room is stored with
`lastActivity` replaced by now. -/
theorem claim_C6_leaveRoom (st : State) (caller : Principal)
    (code : RoomCode) (sid : SessionId) (now : Int) :
    ((leaveRoom st caller code sid now).1 = false ↔
      mapGet st.rooms code = none) ∧
    (∀ room, mapGet st.rooms code = some room →
      (leaveRoom st caller code sid now).1 = true ∧
      (room.participants.filter (fun u => decide (u.sessionId ≠ sid)) = []
        → getRoom (leaveRoom st caller code sid now).2 code = none) ∧
      (room.participants.filter (fun u => decide (u.sessionId ≠ sid)) ≠ []
        → mapGet (leaveRoom st caller code sid now).2.rooms code =
            some { room with
                   participants := room.participants.filter
                     (fun u => decide (u.sessionId ≠ sid)),
                   lastActivity := now })) := by
  unfold leaveRoom
  cases hm : mapGet st.rooms code with
  | none =>
      simp only [hm]
      exact ⟨by simp, fun room hr => by simp at hr⟩
  | some room =>
      simp only [hm]
      constructor
      · split <;> simp
      · intro r hr
        obtain rfl : room = r := Option.some.inj hr
        split
        · rename_i hlen
          have hfe : room.participants.filter
              (fun u => decide (u.sessionId ≠ sid)) = [] :=
            List.length_eq_zero.mp hlen
          refine ⟨rfl, fun _ => ?_, fun hne => absurd hfe hne⟩
          exact mapGet_delete_self st.rooms code
        · rename_i hlen
          have hne : room.participants.filter
              (fun u => decide (u.sessionId ≠ sid)) ≠ [] := by
            intro he
            exact hlen (by rw [he]; rfl)
          refine ⟨rfl, fun he => absurd he hne, fun _ => ?_⟩
          exact mapGet_put_self st.rooms code _

def c6room : Room :=
  { code := "AB12CD", creator := "SESSIONAAAAA",
    participants := [⟨"SESSIONAAAAA", "alice", "User 1", 0⟩],
    messages := [], createdAt := 0, lastActivity := 0 }

def c6state : State :=
  { rooms := [("AB12CD", c6room)], sessions := [],
    messageIdCounter := 0, userCounter := 1 }

theorem claim_C6_witness :
    (leaveRoom c6state "x" "AB12CD" "SESSIONAAAAA" 5).1 = true ∧
    getRoom (leaveRoom c6state "x" "AB12CD" "SESSIONAAAAA" 5).2 "AB12CD"
      = none :=
  ⟨((claim_C6_leaveRoom c6state "x" "AB12CD" "SESSIONAAAAA" 5).2 c6room
      (by decide)).1,
   ((claim_C6_leaveRoom c6state "x" "AB12CD" "SESSIONAAAAA" 5).2 c6room
      (by decide)).2.1 (by decide)⟩

/-- **C10.** A `leaveRoom` by a non-member of an existing room that has at
least one participant leaves the room's participants, messages, code,
creator and createdAt unchanged but still replaces `lastActivity` with
now — a no-op leave by a non-member extends the 20-minute expiry
window. -/
theorem claim_C10_nonmember_leave_bumps (st : State) (caller : Principal)
    (code : RoomCode) (sid : SessionId) (now : Int) (room : Room)
    (hget : mapGet st.rooms code = some room)
    (hnm : ∀ u ∈ room.participants, u.sessionId ≠ sid)
    (hne : room.participants ≠ []) :
    (leaveRoom st caller code sid now).1 = true ∧
    mapGet (leaveRoom st caller code sid now).2.rooms code =
      some { room with lastActivity := now } := by
  have hfilter : room.participants.filter
      (fun u => decide (u.sessionId ≠ sid)) = room.participants :=
    List.filter_eq_self.mpr (fun u hu => by simpa using hnm u hu)
  unfold leaveRoom
  simp only [hget, hfilter]
  rw [if_neg (by simpa [List.length_eq_zero] using hne)]
  exact ⟨rfl, mapGet_put_self st.rooms code _⟩

theorem claim_C10_witness :
    (leaveRoom c4state "x" "AB12CD" "SESSIONCCCCC" 99).1 = true ∧
    mapGet (leaveRoom c4state "x" "AB12CD" "SESSIONCCCCC" 99).2.rooms
      "AB12CD" = some { demoRoom with lastActivity := 99 } :=
  claim_C10_nonmember_leave_bumps c4state "x" "AB12CD" "SESSIONCCCCC" 99
    demoRoom (by decide) (by decide) (by decide)

/-! ## The createRoom retry loop -/

/-- If the codes at indices `attempts..9` all collide, the loop runs its
budget out and stops at `(10, codes 10)` — without consulting the
collision status of `codes 10`. -/
theorem codeLoop_all_collide (rooms : List (RoomCode × Room))
    (codes : Nat → RoomCode) (fuel : Nat) :
    ∀ attempts, attempts + fuel = 10 →
    (∀ k, attempts ≤ k → k < 10 →
      (mapGet rooms (codes k)).isSome = true) →
    codeLoop rooms codes fuel attempts (codes attempts) = (10, codes 10) := by
  induction fuel with
  | zero =>
      intro attempts h _
      obtain rfl : attempts = 10 := by omega
      rfl
  | succ n ih =>
      intro attempts h hall
      have ha : attempts < 10 := by omega
      have hs : (mapGet rooms (codes attempts)).isSome = true :=
        hall attempts le_rfl ha
      simp only [codeLoop]
      rw [if_pos ⟨hs, ha⟩]
      exact ih (attempts + 1) (by omega) (fun k h1 h2 => hall k (by omega) h2)

/-- If `codes k` (with `k ≤ 9`) is the first non-colliding code from
`attempts` on, the loop stops at `(k, codes k)`. -/
theorem codeLoop_first_fresh (rooms : List (RoomCode × Room))
    (codes : Nat → RoomCode) (fuel : Nat) :
    ∀ attempts k, attempts + fuel = 10 → attempts ≤ k → k < 10 →
    mapGet rooms (codes k) = none →
    (∀ j, attempts ≤ j → j < k →
      (mapGet rooms (codes j)).isSome = true) →
    codeLoop rooms codes fuel attempts (codes attempts) = (k, codes k) := by
  induction fuel with
  | zero => intro attempts k h hak hk10 _ _; omega
  | succ n ih =>
      intro attempts k h hak hk10 hnone hall
      by_cases hek : attempts = k
      · subst hek
        simp only [codeLoop]
        rw [if_neg (by simp [hnone])]
      · have hcoll : (mapGet rooms (codes attempts)).isSome = true :=
          hall attempts le_rfl (by omega)
        have ha : attempts < 10 := by omega
        simp only [codeLoop]
        rw [if_pos ⟨hcoll, ha⟩]
        exact ih (attempts + 1) k (by omega) (by omega) hk10 hnone
          (fun j h1 h2 => hall j (by omega) h2)

/-- When `codes k` (`k ≤ 9`) is the first code that does not collide with
the post-sweep store, `createRoom` succeeds with it and stores the new
room there. -/
theorem createRoom_success_at (st : State) (caller : Principal) (now : Int)
    (sid : SessionId) (codes : Nat → RoomCode) (k : Nat) (hk : k < 10)
    (hnone : mapGet (cleanupExpiredRooms st now).rooms (codes k) = none)
    (hall : ∀ j, j < k →
      (mapGet (cleanupExpiredRooms st now).rooms (codes j)).isSome = true) :
    (createRoom st caller now sid codes).1 = .Ok (codes k)
      { code := codes k, creator := sid,
        participants :=
          [(createOrGetUser (cleanupExpiredRooms st now) sid caller now).1],
        messages := [], createdAt := now, lastActivity := now } sid ∧
    mapGet (createRoom st caller now sid codes).2.rooms (codes k) =
      some { code := codes k, creator := sid,
             participants :=
               [(createOrGetUser (cleanupExpiredRooms st now) sid caller
                  now).1],
             messages := [], createdAt := now, lastActivity := now } := by
  have hrooms := createOrGetUser_rooms (cleanupExpiredRooms st now) sid
    caller now
  have hloop := codeLoop_first_fresh
    ((createOrGetUser (cleanupExpiredRooms st now) sid caller now).2.rooms)
    codes 10 0 k (by omega) (by omega) hk (by rw [hrooms]; exact hnone)
    (fun j _ hj => by rw [hrooms]; exact hall j hj)
  unfold createRoom
  dsimp only
  rw [hloop]
  rw [if_neg (by dsimp only; omega)]
  exact ⟨rfl, mapGet_put_self _ _ _⟩

/-- **C1 (amended).** `createRoom` returns the error iff the initially
generated code and the first 9 retry codes (`codes 0 .. codes 9`) all
collide with the post-sweep store — the 10th retry's code is generated
but its collision status is never consulted, so an execution whose only
non-colliding code is the 10th retry still fails.  Whenever some code
among indices 0..9 does not collide, the call succeeds and stores the
room under the first such code. -/
theorem claim_C1_amended (st : State) (caller : Principal) (now : Int)
    (sid : SessionId) (codes : Nat → RoomCode) :
    (((createRoom st caller now sid codes).1
        = .Err "Failed to generate unique room code") ↔
      (∀ k, k < 10 →
        (mapGet (cleanupExpiredRooms st now).rooms (codes k)).isSome
          = true)) ∧
    (∀ k, k < 10 →
      mapGet (cleanupExpiredRooms st now).rooms (codes k) = none →
      (∀ j, j < k →
        (mapGet (cleanupExpiredRooms st now).rooms (codes j)).isSome
          = true) →
      ∃ room, (createRoom st caller now sid codes).1
          = .Ok (codes k) room sid ∧
        mapGet (createRoom st caller now sid codes).2.rooms (codes k)
          = some room ∧ room.creator = sid ∧ room.code = codes k) := by
  have hrooms := createOrGetUser_rooms (cleanupExpiredRooms st now) sid
    caller now
  constructor
  · constructor
    · intro herr
      by_contra hnall
      push_neg at hnall
      obtain ⟨k0, hk0, hne0⟩ := hnall
      have hex : ∃ k, k < 10 ∧
          mapGet (cleanupExpiredRooms st now).rooms (codes k) = none :=
        ⟨k0, hk0, by
          cases hc : mapGet (cleanupExpiredRooms st now).rooms (codes k0)
          · rfl
          · exact absurd (by simp [hc]) hne0⟩
      classical
      have hPk := Nat.find_spec hex
      have hmin : ∀ j, j < Nat.find hex →
          ¬(j < 10 ∧
            mapGet (cleanupExpiredRooms st now).rooms (codes j) = none) :=
        fun j hj => Nat.find_min hex hj
      have hfirst : ∀ j, j < Nat.find hex →
          (mapGet (cleanupExpiredRooms st now).rooms (codes j)).isSome
            = true := by
        intro j hj
        cases hc : mapGet (cleanupExpiredRooms st now).rooms (codes j) with
        | none =>
            exact absurd ⟨lt_trans hj hPk.1, hc⟩ (hmin j hj)
        | some r => rfl
      have hsucc := createRoom_success_at st caller now sid codes
        (Nat.find hex) hPk.1 hPk.2 hfirst
      rw [hsucc.1] at herr
      exact CreateRoomResult.noConfusion herr
    · intro hall
      have hloop := codeLoop_all_collide
        ((createOrGetUser (cleanupExpiredRooms st now) sid caller
          now).2.rooms) codes 10 0 (by omega)
        (fun k _ hk => by rw [hrooms]; exact hall k hk)
      unfold createRoom
      dsimp only
      rw [hloop]
      rw [if_pos (by dsimp only; omega)]
  · intro k hk hnone hall
    exact ⟨_, (createRoom_success_at st caller now sid codes k hk hnone
        hall).1,
      (createRoom_success_at st caller now sid codes k hk hnone hall).2,
      rfl, rfl⟩

def c1room (c : RoomCode) : Room :=
  { code := c, creator := "SESSIONAAAAA",
    participants := [⟨"SESSIONAAAAA", "alice", "User 1", 0⟩],
    messages := [], createdAt := 0, lastActivity := 0 }

def c1state : State :=
  { rooms := (List.range 10).map (fun k => (toString k, c1room (toString k))),
    sessions := [], messageIdCounter := 0, userCounter := 0 }

def c1codes : Nat → RoomCode :=
  fun k => if k < 10 then toString k else "ZZZZZZ"

/-- **C1 (counterexample).** In a store holding ten live rooms under the
codes "0" .. "9", with a generation stream whose initial code and first 9
retries are exactly those ten colliding codes and whose 10th retry is the
fresh code "ZZZZZZ", `createRoom` returns the error "Failed to generate
unique room code" even though the 10th retry — within the stated budget
of 10 retries — yielded a non-colliding code. -/
theorem claim_C1_counterexample :
    (∀ k, k < 10 →
      (mapGet (cleanupExpiredRooms c1state 0).rooms (c1codes k)).isSome
        = true) ∧
    mapGet (cleanupExpiredRooms c1state 0).rooms (c1codes 10) = none ∧
    (createRoom c1state "caller" 0 "NEWSESSION1X" c1codes).1
      = .Err "Failed to generate unique room code" := by decide

theorem claim_C1_witness :
    ((createRoom c1state "caller" 0 "NEWSESSION1X" c1codes).1
        = .Err "Failed to generate unique room code") ∧
    (∃ room, (createRoom initState "alice" 0 "SESSIONAAAAA" demoCodes).1
        = .Ok (demoCodes 0) room "SESSIONAAAAA" ∧
      mapGet (createRoom initState "alice" 0 "SESSIONAAAAA"
        demoCodes).2.rooms (demoCodes 0) = some room ∧
      room.creator = "SESSIONAAAAA" ∧ room.code = demoCodes 0) :=
  ⟨((claim_C1_amended c1state "caller" 0 "NEWSESSION1X" c1codes).1).mpr
      (by decide),
   (claim_C1_amended initState "alice" 0 "SESSIONAAAAA" demoCodes).2 0
      (by decide) (by decide) (fun j hj => absurd hj (Nat.not_lt_zero j))⟩

/-! ## getMessages and expiry -/

def c2ops : List Op :=
  [ .create "alice" 0 "SESSIONAAAAA" demoCodes,
    .send "AB12CD" "alice" "SESSIONAAAAA" "hi" 0 ]

def c2state : State := runOps initState c2ops

def c2now : Int := 21 * 60 * 1000000000

def c2msg : Message := ⟨0, "SESSIONAAAAA", "User 1", "hi", 0⟩

def c2room : Room :=
  { code := "AB12CD", creator := "SESSIONAAAAA",
    participants := [⟨"SESSIONAAAAA", "alice", "User 1", 0⟩],
    messages := [c2msg], createdAt := 0, lastActivity := 0 }

/-- **C2 (counterexample).** In the state reached by creating a room at
time 0 and sending one message, with the current time 21 minutes later
the stored room is expired, yet `getMessages` still returns the stored
message, not the empty sequence: this read path performs no expiry
check. -/
theorem claim_C2_counterexample :
    getRoom c2state "AB12CD" = some c2room ∧
    c2now - c2room.lastActivity > SESSION_TIMEOUT ∧
    getMessages c2state "AB12CD" = [c2msg] ∧
    [c2msg] ≠ ([] : List Message) := by decide

/-- **C2 (amended).** `getMessages` performs no expiry check: it returns
the stored room's messages whatever `lastActivity` is.  An expired room's
messages read as empty only after an expiry sweep (run at the start of
the mutating calls, or by `cleanup`) has deleted the room. -/
theorem claim_C2_amended (st : State) (code : RoomCode) (room : Room)
    (now : Int) (hget : mapGet st.rooms code = some room) :
    getMessages st code = room.messages ∧
    ((st.rooms.map Prod.fst).Nodup →
      now - room.lastActivity > SESSION_TIMEOUT →
      getMessages (cleanupExpiredRooms st now) code = []) := by
  constructor
  · unfold getMessages
    simp only [hget]
  · intro hnd hexp
    have hgone : mapGet (cleanupExpiredRooms st now).rooms code = none := by
      refine mapGet_filter_drop st.rooms code room _ hnd hget ?_
      simp only [decide_eq_false_iff_not, not_not]
      exact hexp
    unfold getMessages
    simp only [hgone]

theorem claim_C2_witness :
    getMessages c2state "AB12CD" = c2room.messages ∧
    getMessages (cleanupExpiredRooms c2state c2now) "AB12CD" = [] :=
  ⟨(claim_C2_amended c2state "AB12CD" c2room c2now (by decide)).1,
   (claim_C2_amended c2state "AB12CD" c2room c2now (by decide)).2
      (by decide) (by decide)⟩

end CanChat
